import Mathlib

/-!
# Verification of the monocoque interop/benchmark tooling

Shallow embedding of the Python sources of the `monocoque` repository:

* `monocoque/analyze_benchmarks.py` — Criterion-result parsing, throughput
  formatting and summary generation (`parse_criterion_results`,
  `format_throughput`, `generate_summary`);
* `monocoque/benches/interop/libzmq_throughput.py` — the REQ/REP round-trip
  benchmark loop and the PUB/SUB bulk-transfer receive loop;
* `interop_tests/test_req_rep_interop.py` — the `MonocoqueServer` process
  harness (`stop`);
* `interop_tests/test_pub_sub_interop.py` — topic filtering (the filtering
  engine itself is the Rust system under test, modelled from the spec).

Python floats are modelled as exact rationals (`ℚ`); Python's
`ZeroDivisionError` is modelled by `Option` (`none` = the exception
propagates); Python strings are `String`/`List Char` (code-point sequences).
-/

namespace Monocoque

/-! ## Generic Python-string helpers -/

/-- Code-point comparison of character lists, modelling Python string `<`
(lexicographic on code points). -/
def charListLt : List Char → List Char → Bool
  | [], [] => false
  | [], _ :: _ => true
  | _ :: _, [] => false
  | a :: as, b :: bs =>
    if a.toNat < b.toNat then true
    else if b.toNat < a.toNat then false
    else charListLt as bs

/-- Python string `<` on `String`. -/
def strLt (a b : String) : Bool := charListLt a.toList b.toList

/-- Python substring membership `needle in hay` on character lists. -/
def containsSub (needle : List Char) : List Char → Bool
  | [] => needle.isEmpty
  | c :: rest => (List.take needle.length (c :: rest) == needle) || containsSub needle rest

/-- Python substring membership `needle in hay` on `String`. -/
def strContains (hay needle : String) : Bool := containsSub needle.toList hay.toList

/-- Python `str.upper` restricted to the per-character case mapping (category
names here are ASCII). -/
def strUpper (s : String) : String := String.mk (s.toList.map Char.toUpper)

/-- Python `str.replace`: replace all non-overlapping occurrences of `p` by
`r`, scanning left to right.  Structured with an explicit fuel argument (the
input's length suffices, each step consumes at least one character) so that
the function is structurally recursive and kernel-evaluable.  The patterns
used in this program are nonempty, so the empty-pattern case (where Python
would interleave `r` everywhere) is not modelled. -/
def replaceAllFuel (p r : List Char) : ℕ → List Char → List Char
  | 0, s => s
  | fuel + 1, s =>
    if p ≠ [] ∧ s.take p.length = p then r ++ replaceAllFuel p r fuel (s.drop p.length)
    else
      match s with
      | [] => []
      | c :: rest => c :: replaceAllFuel p r fuel rest

/-- Python `str.replace` on character lists. -/
def replaceAll (p r s : List Char) : List Char := replaceAllFuel p r s.length s

/-- Python `s.replace(old, new)` on `String`. -/
def pyReplace (s old new : String) : String :=
  String.mk (replaceAll old.toList new.toList s.toList)

/-- Occurrence of `q` as a contiguous substring of `s`. -/
def occursIn (q s : List Char) : Prop := ∃ a b, s = a ++ (q ++ b)

/-- The pattern `"monocoque"` as a character list. -/
def pMono : List Char := ['m', 'o', 'n', 'o', 'c', 'o', 'q', 'u', 'e']

/-- The replacement `"zmq_rs"` as a character list. -/
def rZmq : List Char := ['z', 'm', 'q', '_', 'r', 's']

/-- The pattern `"_monocoque_"` as a character list. -/
def pUnd : List Char := ['_', 'm', 'o', 'n', 'o', 'c', 'o', 'q', 'u', 'e', '_']

/-! ## analyze_benchmarks.py — data model and parsing -/

/-- The optional `throughput` object of a Criterion estimates file
(`per_iteration` numeric, `unit` string); a missing or empty dict is
`Option.none` at the use site. -/
structure ThroughputDesc where
  per_iteration : Option ℚ
  unit : Option String

/-- The `mean.confidence_interval` object; each bound may be absent. -/
structure ConfidenceInterval where
  lower_bound : Option ℚ
  upper_bound : Option ℚ

/-- The `mean` object of an estimates file. -/
structure MeanEstimate where
  point_estimate : Option ℚ
  confidence_interval : Option ConfidenceInterval

/-- A Criterion `estimates.json` file, restricted to the fields the script
reads.  All times are nanoseconds. -/
structure EstimatesFile where
  mean : Option MeanEstimate
  throughput : Option ThroughputDesc

/-- The per-benchmark record built by `parse_criterion_results`
(analyze_benchmarks.py lines 34-39): times converted to milliseconds. -/
structure BenchData where
  mean : ℚ
  mean_lower : ℚ
  mean_upper : ℚ
  throughput : Option ThroughputDesc

/-- The per-benchmark body of `parse_criterion_results` (lines 31-39):
`mean.get('point_estimate', 0) / 1e6` and likewise for the confidence
bounds, each missing field defaulting to `0`; the raw throughput object is
stored unchanged. -/
def parse_criterion_bench (data : EstimatesFile) : BenchData :=
  let mean := data.mean.getD ⟨none, none⟩
  let ci := mean.confidence_interval.getD ⟨none, none⟩
  { mean := mean.point_estimate.getD 0 / 1000000
    mean_lower := ci.lower_bound.getD 0 / 1000000
    mean_upper := ci.upper_bound.getD 0 / 1000000
    throughput := data.throughput }

/-! ## analyze_benchmarks.py — formatting and summary -/

/-- Round a rational to the nearest integer, ties to even — the rounding of
Python's `f"{x:.2f}"` string formatting (the values formatted by this program
are nonnegative). -/
def roundHalfEven (q : ℚ) : ℤ :=
  let f : ℤ := ⌊q⌋
  if q - f < 1 / 2 then f
  else if (1 : ℚ) / 2 < q - f then f + 1
  else if f % 2 = 0 then f else f + 1

/-- Python's `f"{x:.2f}"` fixed-point rendering with two decimals, for the
nonnegative values this program formats. -/
def fmt2 (q : ℚ) : String :=
  let n : ℤ := roundHalfEven (q * 100)
  let ip : ℤ := n / 100
  let fp : ℕ := (n % 100).natAbs
  toString ip ++ "." ++ (if fp < 10 then "0" ++ toString fp else toString fp)

/-- `format_throughput` (analyze_benchmarks.py lines 43-58). -/
def format_throughput (value : ℚ) (unit : String) : String :=
  if unit = "bytes" then
    if 1000000000 ≤ value then fmt2 (value / 1000000000) ++ " GiB/s"
    else if 1000000 ≤ value then fmt2 (value / 1000000) ++ " MiB/s"
    else fmt2 (value / 1000) ++ " KiB/s"
  else
    if 1000000 ≤ value then fmt2 (value / 1000000) ++ "M msg/s"
    else if 1000 ≤ value then fmt2 (value / 1000) ++ "K msg/s"
    else fmt2 value ++ " msg/s"

/-- The throughput derivation of `generate_summary` (line 89):
`value / (mean / 1000)`.  Python float division raises `ZeroDivisionError`
when the denominator is zero; over exact rationals `mean / 1000 = 0` iff
`mean = 0`, so the zero test is placed on `mean`. -/
def deriveThroughput (value mean_ms : ℚ) : Option ℚ :=
  if mean_ms = 0 then none else some (value / (mean_ms / 1000))

/-- The speedup of `generate_summary` (line 116): the counterpart (zmq_rs)
benchmark's mean divided by this (monocoque) benchmark's mean. -/
def speedup (mono_time zmq_time : ℚ) : ℚ := zmq_time / mono_time

/-- The speedup computation including Python's `ZeroDivisionError` on a zero
`mono_time`. -/
def speedupChecked (mono_time zmq_time : ℚ) : Option ℚ :=
  if mono_time = 0 then none else some (speedup mono_time zmq_time)

/-- The category key of `generate_summary` (line 69): `name.split('_')[0]`,
the characters before the first underscore. -/
def categoryOf (name : String) : String :=
  String.mk (name.toList.takeWhile (fun c => c ≠ '_'))

/-- Stable insertion into a list sorted ascending by a string key (Python's
stable `sorted`). -/
def insertAscBy {α : Type} (key : α → String) (x : α) : List α → List α
  | [] => [x]
  | y :: ys => if strLt (key y) (key x) then y :: insertAscBy key x ys else x :: y :: ys

/-- Python's `sorted` by a string key. -/
def sortAscBy {α : Type} (key : α → String) (l : List α) : List α :=
  l.foldr (insertAscBy key) []

/-- Stable insertion for `sorted(pipelined, key=lambda x: x[1]['mean'])`. -/
def insertByMean (x : String × BenchData) :
    List (String × BenchData) → List (String × BenchData)
  | [] => [x]
  | y :: ys => if y.2.mean < x.2.mean then y :: insertByMean x ys else x :: y :: ys

/-- `sorted(pipelined, key=lambda x: x[1]['mean'])`. -/
def sortByMean (l : List (String × BenchData)) : List (String × BenchData) :=
  l.foldr insertByMean []

/-- Stable insertion for `sorted(comparisons, key=lambda x: x[1], reverse=True)`. -/
def insertDescBySpeedup (x : String × ℚ) : List (String × ℚ) → List (String × ℚ)
  | [] => [x]
  | y :: ys => if y.2 ≤ x.2 then x :: y :: ys else y :: insertDescBySpeedup x ys

/-- `sorted(comparisons, key=lambda x: x[1], reverse=True)`. -/
def sortDescBySpeedup (l : List (String × ℚ)) : List (String × ℚ) :=
  l.foldr insertDescBySpeedup []

/-- Append an item to its category's bucket, preserving first-appearance
order of categories (Python's `defaultdict(list)` insertion order). -/
def addToCategory (cat : String) (item : String × BenchData) :
    List (String × List (String × BenchData)) → List (String × List (String × BenchData))
  | [] => [(cat, [item])]
  | (c, items) :: rest =>
    if c = cat then (c, items ++ [item]) :: rest
    else (c, items) :: addToCategory cat item rest

/-- The category grouping of `generate_summary` (lines 67-70). -/
def groupByCategory (l : List (String × BenchData)) :
    List (String × List (String × BenchData)) :=
  l.foldl (fun acc nd => addToCategory (categoryOf nd.1) nd acc) []

/-- Monadic concat-map over `Option`: the first raised exception aborts the
whole computation, as in Python. -/
def mapMConcat {α : Type} (f : α → Option (List String)) : List α → Option (List String)
  | [] => some []
  | x :: xs => do
    let l ← f x
    let ls ← mapMConcat f xs
    pure (l ++ ls)

/-- The per-benchmark section lines of `generate_summary` (lines 75-91):
header, mean line, and — when the stored throughput object is non-empty and
has a `per_iteration` key — a derived-throughput line. -/
def benchLines (name : String) (d : BenchData) : Option (List String) :=
  let header := "### " ++ name
  let meanLine := "- **Mean Time**: " ++ fmt2 d.mean ++ " ms [" ++ fmt2 d.mean_lower ++
    ", " ++ fmt2 d.mean_upper ++ "]"
  match d.throughput with
  | some tp =>
    match tp.per_iteration with
    | some v =>
      match deriveThroughput v d.mean with
      | some thr =>
        some [header, meanLine,
          "- **Throughput**: " ++ format_throughput thr (tp.unit.getD "bytes"), ""]
      | none => none
    | none => some [header, meanLine, ""]
  | none => some [header, meanLine, ""]

/-- One line of the pipelined-highlights section (lines 100-105). -/
def pipelinedLine (nd : String × BenchData) : Option (List String) :=
  match nd.2.throughput with
  | some tp =>
    match tp.per_iteration with
    | some v =>
      match deriveThroughput v nd.2.mean with
      | some thr =>
        some ["- **" ++ nd.1 ++ "**: " ++ format_throughput thr (tp.unit.getD "bytes")]
      | none => none
    | none => some []
  | none => some []

/-- The counterpart-name construction of `generate_summary` (line 112):
`name.replace('monocoque', 'zmq_rs').replace('_monocoque_', '_zmq_rs_')`. -/
def counterpartBase (name : String) : String :=
  pyReplace (pyReplace name "monocoque" "zmq_rs") "_monocoque_" "_zmq_rs_"

/-- The comparison-collection loop of `generate_summary` (lines 109-117):
for every benchmark whose name contains `monocoque` whose counterpart exists,
record `(name, zmq_time / mono_time)`. -/
def buildComparisons (results : List (String × BenchData)) :
    List (String × BenchData) → Option (List (String × ℚ))
  | [] => some []
  | (name, d) :: rest =>
    if strContains name "monocoque" then
      match results.lookup (counterpartBase name) with
      | some dbase =>
        match speedupChecked d.mean dbase.mean with
        | some sp => (buildComparisons results rest).map (fun cs => (name, sp) :: cs)
        | none => none
      | none => buildComparisons results rest
    else buildComparisons results rest

/-- One line of the comparison section (lines 121-125).  For a speedup ≤ 1
Python divides by the speedup again, raising if it is zero. -/
def comparisonLine (c : String × ℚ) : Option (List String) :=
  if 1 < c.2 then some ["- **" ++ c.1 ++ "**: " ++ fmt2 c.2 ++ "x faster"]
  else if c.2 = 0 then none
  else some ["- **" ++ c.1 ++ "**: " ++ fmt2 (1 / c.2) ++ "x slower"]

/-- `generate_summary` (analyze_benchmarks.py lines 60-128) as the list of
report lines; `none` models an uncaught `ZeroDivisionError`.  The
`Generated: {Path.cwd()}` line depends on the environment and is modelled by
the constant line `"Generated\n"`; the final `'\n'.join` is immaterial to
the claims and omitted. -/
def generate_summary (results : List (String × BenchData)) : Option (List String) := do
  let header := ["# Monocoque Benchmark Results Summary\n", "Generated\n"]
  let sortedResults := sortAscBy (fun nd => nd.1) results
  let cats := sortAscBy (fun cb => cb.1) (groupByCategory sortedResults)
  let sections ← mapMConcat
    (fun cb => do
      let benchParts ← mapMConcat (fun nd => benchLines nd.1 nd.2) cb.2
      pure (("\n## " ++ strUpper cb.1 ++ "\n") :: benchParts))
    cats
  let highlights := ["\n## 🚀 Performance Highlights\n"]
  let pipelined := results.filter (fun nd => strContains nd.1 "pipelined")
  let pipelinedPart ←
    if pipelined.isEmpty then pure []
    else do
      let lines ← mapMConcat pipelinedLine (sortByMean pipelined)
      pure ("### Pipelined Throughput (with Batching API)" :: (lines ++ [""]))
  let comparisons ← buildComparisons results results
  let comparisonPart ←
    if comparisons.isEmpty then pure []
    else do
      let lines ← mapMConcat comparisonLine (sortDescBySpeedup comparisons)
      pure ("### Monocoque vs rust-zmq Comparison" :: (lines ++ [""]))
  pure (header ++ sections ++ highlights ++ pipelinedPart ++ comparisonPart)

/-! ## libzmq_throughput.py — benchmark loops -/

/-- The warm-up iteration count of `bench_req_rep_throughput` (line 34). -/
def warmupIterations : ℕ := 100

/-- The result dict of `bench_req_rep_throughput` (lines 59-64). -/
structure ReqRepResult where
  throughput : ℚ
  latency_us : ℚ
  elapsed : ℚ
  num_messages : ℕ

/-- `bench_req_rep_throughput` (libzmq_throughput.py lines 15-64).
`exchangeTime i` is the wall time of the i-th request-reply exchange the
process performs; exchanges `0..99` are the warm-up (timings discarded), and
`elapsed` accumulates exactly the `num_messages` timed exchanges that follow.
Reports `throughput = num_messages / elapsed` and
`latency_us = elapsed / num_messages * 1e6`. -/
def bench_req_rep_throughput (num_messages : ℕ) (exchangeTime : ℕ → ℚ) : ReqRepResult :=
  let elapsed := ((List.range num_messages).map
    (fun i => exchangeTime (warmupIterations + i))).sum
  { throughput := num_messages / elapsed
    latency_us := elapsed / num_messages * 1000000
    elapsed := elapsed
    num_messages := num_messages }

/-- The bulk-transfer receive loop of `bench_pub_sub_throughput`
(libzmq_throughput.py lines 99-106):

    while received < num_messages:
        try: sub.recv(zmq.NOBLOCK); received += 1
        except zmq.Again: time.sleep(0.001)

`polls t = true` means the non-blocking `recv` at poll `t` returns a message;
`false` models `zmq.Again` (the loop sleeps 1 ms and retries).  `fuel` bounds
how many loop iterations are examined: `none` means the loop is still running
after `fuel` iterations, `some r` that it exited with `received = r`. -/
def recvLoop (num_messages : ℕ) (polls : ℕ → Bool) : ℕ → ℕ → ℕ → Option ℕ
  | 0, _, _ => none
  | fuel + 1, t, received =>
    if received < num_messages then
      if polls t then recvLoop num_messages polls fuel (t + 1) (received + 1)
      else recvLoop num_messages polls fuel (t + 1) received
    else some received

/-- Number of successful polls among times `t, t+1, ..., t+k-1`. -/
def countHits (polls : ℕ → Bool) : ℕ → ℕ → ℕ
  | _, 0 => 0
  | t, k + 1 => (if polls t then 1 else 0) + countHits polls (t + 1) k

/-! ## test_req_rep_interop.py — process harness -/

namespace MonocoqueServer

/-- How `stop` returns: normally, or by propagating
`subprocess.TimeoutExpired` out of `process.wait(timeout=5)`. -/
inductive StopOutcome where
  | returned
  | timeoutExpired
deriving DecidableEq

/-- Observable outcome of a `stop` invocation. -/
structure StopResult where
  sigtermSent : Bool
  processTerminated : Bool
  outcome : StopOutcome

/-- `MonocoqueServer.stop` (test_req_rep_interop.py lines 42-46) for a
running supervised process.  `exitAfterSigterm` is the time in seconds after
SIGTERM delivery at which the process exits, `none` if it never exits.
The code sends SIGTERM and calls `process.wait(timeout=5)`: if the process
exits within 5 seconds the wait returns; otherwise `TimeoutExpired`
propagates and no further action is taken — in particular the process is
never killed. -/
def stop (exitAfterSigterm : Option ℚ) : StopResult :=
  match exitAfterSigterm with
  | some t =>
    if t ≤ 5 then { sigtermSent := true, processTerminated := true, outcome := .returned }
    else { sigtermSent := true, processTerminated := false, outcome := .timeoutExpired }
  | none => { sigtermSent := true, processTerminated := false, outcome := .timeoutExpired }

end MonocoqueServer

/-! ## test_pub_sub_interop.py — topic filtering (spec-modelled) -/

/-- Modelled from the spec: the subscription filtering performed by the
system under test (the Rust `sub_client` driven by `test_topic_filtering`)
is not part of the Python sources; per the spec, a published message is
delivered to a subscriber iff its byte content starts with the
subscription's topic, and delivered messages appear in publish order. -/
def deliverToSub (topic : List Char) (published : List (List Char)) : List (List Char) :=
  published.filter (fun m => m.take topic.length == topic)

/-! ## Concrete inputs used by the claims -/

/-- Estimates file with confidence bounds present but `point_estimate`
absent (C3 counterexample input). -/
def c3file : EstimatesFile :=
  { mean := some
      { point_estimate := none
        confidence_interval := some { lower_bound := some 2000000, upper_bound := some 3000000 } }
    throughput := none }

/-- The estimates file of the C6 scenario: `mean.point_estimate` 1,000,000 ns
and `throughput.per_iteration = 1024` with unit `"bytes"`. -/
def c6file : EstimatesFile :=
  { mean := some { point_estimate := some 1000000, confidence_interval := none }
    throughput := some { per_iteration := some 1024, unit := some "bytes" } }

/-- Results mapping with a zero-mean benchmark carrying a throughput
descriptor (C9, throughput division). -/
def c9tp : List (String × BenchData) :=
  [("pipe_monocoque_tp",
    { mean := 0, mean_lower := 0, mean_upper := 0,
      throughput := some { per_iteration := some 1024, unit := some "bytes" } })]

/-- Results mapping where a zero-mean monocoque benchmark participates in a
monocoque/zmq_rs comparison pair (C9, speedup division). -/
def c9cmp : List (String × BenchData) :=
  [("bench_monocoque_x", { mean := 0, mean_lower := 0, mean_upper := 0, throughput := none }),
   ("bench_zmq_rs_x", { mean := 5, mean_lower := 0, mean_upper := 0, throughput := none })]

/-- The branch-by-branch description of `format_throughput` (C5). -/
def FormatThroughputSpec (v : ℚ) : Prop :=
  (1000000000 ≤ v → format_throughput v "bytes" = fmt2 (v / 1000000000) ++ " GiB/s") ∧
  (1000000 ≤ v → v < 1000000000 → format_throughput v "bytes" = fmt2 (v / 1000000) ++ " MiB/s") ∧
  (v < 1000000 → format_throughput v "bytes" = fmt2 (v / 1000) ++ " KiB/s") ∧
  (1000000 ≤ v → format_throughput v "elements" = fmt2 (v / 1000000) ++ "M msg/s") ∧
  (1000 ≤ v → v < 1000000 → format_throughput v "elements" = fmt2 (v / 1000) ++ "K msg/s") ∧
  (v < 1000 → format_throughput v "elements" = fmt2 v ++ " msg/s")

/-! ## C3 — the parsed-estimate ordering invariant -/

/-- C3 counterexample: for the estimates file `c3file` (confidence bounds
2,000,000 ns and 3,000,000 ns present, `point_estimate` absent and hence
defaulted to 0), the parsed record violates
`mean_lower ≤ mean ∧ mean ≤ mean_upper`: its `mean_lower` is 2 ms while its
`mean` is 0 ms. -/
theorem parse_invariant_fails_on_missing_point :
    ¬ ((parse_criterion_bench c3file).mean_lower ≤ (parse_criterion_bench c3file).mean ∧
       (parse_criterion_bench c3file).mean ≤ (parse_criterion_bench c3file).mean_upper) := by
  intro h
  have h1 := h.1
  norm_num [parse_criterion_bench, c3file] at h1

/-- C3 (amended): after the nanosecond-to-millisecond conversion the parsed
estimate satisfies `lower_bound ≤ point_estimate ≤ upper_bound` iff the raw
values with absent fields defaulted to 0 satisfy it — so the invariant holds
whenever all three fields are present and ordered in the input file (or all
are absent), but it can fail when `point_estimate` is absent while a
positive `lower_bound` is present. -/
theorem parse_invariant_iff_raw_ordered (d : EstimatesFile) :
    ((parse_criterion_bench d).mean_lower ≤ (parse_criterion_bench d).mean ∧
      (parse_criterion_bench d).mean ≤ (parse_criterion_bench d).mean_upper) ↔
    (((d.mean.getD ⟨none, none⟩).confidence_interval.getD ⟨none, none⟩).lower_bound.getD 0 ≤
        (d.mean.getD ⟨none, none⟩).point_estimate.getD 0 ∧
      (d.mean.getD ⟨none, none⟩).point_estimate.getD 0 ≤
        ((d.mean.getD ⟨none, none⟩).confidence_interval.getD ⟨none, none⟩).upper_bound.getD 0) := by
  simp only [parse_criterion_bench]
  constructor <;> rintro ⟨h1, h2⟩ <;> exact ⟨by linarith, by linarith⟩

/-! ## C4 — speedup inverse symmetry -/

/-- C4: for positive mean times, the speedup computation of
`generate_summary` (counterpart mean divided by this benchmark's mean) is
multiplicative-inverse symmetric: `speedup ma mb * speedup mb ma = 1`,
exactly, over rational arithmetic. -/
theorem speedup_inverse_symmetric (ma mb : ℚ) (ha : 0 < ma) (hb : 0 < mb) :
    speedup ma mb * speedup mb ma = 1 := by
  unfold speedup
  field_simp

/-- Witness for C4 at the concrete means 2 and 3. -/
theorem speedup_inverse_symmetric_witness :
    (0 : ℚ) < 2 ∧ (0 : ℚ) < 3 ∧ speedup 2 3 * speedup 3 2 = 1 :=
  ⟨by norm_num, by norm_num, speedup_inverse_symmetric 2 3 (by norm_num) (by norm_num)⟩

/-! ## C5 — throughput formatting -/

/-- C5: for every nonnegative raw throughput value, `format_throughput`
selects exactly the branch the spec describes: for unit `"bytes"`, GiB/s
(÷1e9) when the value is ≥ 1e9, MiB/s (÷1e6) when it is in [1e6, 1e9), and
KiB/s (÷1e3) otherwise; for unit `"elements"`, `M msg/s` (÷1e6) when ≥ 1e6,
`K msg/s` (÷1e3) when in [1e3, 1e6), and the raw value as `msg/s` otherwise;
each branch rendered with the two-decimal formatter `fmt2`. -/
theorem format_throughput_spec (v : ℚ) (_hv : 0 ≤ v) : FormatThroughputSpec v := by
  refine ⟨fun h1 => ?_, fun h1 h2 => ?_, fun h1 => ?_, fun h1 => ?_, fun h1 h2 => ?_,
    fun h1 => ?_⟩
  · rw [format_throughput, if_pos rfl, if_pos h1]
  · rw [format_throughput, if_pos rfl, if_neg (not_le.mpr h2), if_pos h1]
  · rw [format_throughput, if_pos rfl,
      if_neg (not_le.mpr (lt_trans h1 (by norm_num))), if_neg (not_le.mpr h1)]
  · rw [format_throughput, if_neg (by decide), if_pos h1]
  · rw [format_throughput, if_neg (by decide), if_neg (not_le.mpr h2), if_pos h1]
  · rw [format_throughput, if_neg (by decide),
      if_neg (not_le.mpr (lt_trans h1 (by norm_num))), if_neg (not_le.mpr h1)]

/-- Witness for C5 at the concrete value 500. -/
theorem format_throughput_spec_witness : (0 : ℚ) ≤ 500 ∧ FormatThroughputSpec 500 :=
  ⟨by norm_num, format_throughput_spec 500 (by norm_num)⟩

/-! ## C2 — the harness stop operation -/

/-- C2 counterexample: it is not the case that every invocation of
`MonocoqueServer.stop` leaves the supervised process terminated — for a
process that ignores SIGTERM (`exitAfterSigterm = none`), the 5-second wait
expires and the process is left running; no forcible kill is issued. -/
theorem stop_does_not_always_terminate :
    ¬ ∀ e : Option ℚ, (MonocoqueServer.stop e).processTerminated = true := by
  intro h
  have hn := h none
  simp [MonocoqueServer.stop] at hn

/-- C2 (amended): every invocation of `MonocoqueServer.stop` sends SIGTERM
and waits at most the 5-second grace timeout; the process is left terminated
iff it exits within that grace period, and otherwise `stop` raises
`TimeoutExpired` and leaves the process running — it never forcibly kills
it. -/
theorem stop_grace_behavior (e : Option ℚ) :
    (MonocoqueServer.stop e).sigtermSent = true ∧
    ((MonocoqueServer.stop e).processTerminated = true ↔ ∃ t, e = some t ∧ t ≤ 5) ∧
    ((MonocoqueServer.stop e).outcome = MonocoqueServer.StopOutcome.timeoutExpired ↔
      (MonocoqueServer.stop e).processTerminated = false) := by
  rcases e with _ | t
  · simp [MonocoqueServer.stop]
  · by_cases h : t ≤ 5 <;> simp [MonocoqueServer.stop, h]

/-! ## C7 — topic filtering -/

/-- C7: for a subscriber with topic `"ALERT"` and the published frames
`"INFO: a"`, `"ALERT: b"`, `"DEBUG: c"`, `"ALERT: d"`, the delivered
messages are exactly `["ALERT: b", "ALERT: d"]` in publish order, the
non-matching frames are never delivered, and in general a published message
is delivered iff its byte content starts with the subscription's topic. -/
theorem topic_filtering_spec :
    deliverToSub "ALERT".toList
        ["INFO: a".toList, "ALERT: b".toList, "DEBUG: c".toList, "ALERT: d".toList] =
      ["ALERT: b".toList, "ALERT: d".toList] ∧
    "INFO: a".toList ∉ deliverToSub "ALERT".toList
        ["INFO: a".toList, "ALERT: b".toList, "DEBUG: c".toList, "ALERT: d".toList] ∧
    "DEBUG: c".toList ∉ deliverToSub "ALERT".toList
        ["INFO: a".toList, "ALERT: b".toList, "DEBUG: c".toList, "ALERT: d".toList] ∧
    ∀ (topic : List Char) (published : List (List Char)) (m : List Char),
      m ∈ deliverToSub topic published ↔ m ∈ published ∧ m.take topic.length = topic := by
  refine ⟨by decide, by decide, by decide, fun topic published m => ?_⟩
  simp [deliverToSub, List.mem_filter]

/-! ## C6 — the concrete aggregation scenario -/

/-- C6: for the estimates file `c6file` (mean point estimate 1,000,000 ns,
throughput 1024 bytes per iteration), parsing derives a mean of exactly 1 ms
(rendered "1.00"), the throughput derivation yields exactly
1024 / 0.001 = 1,024,000 bytes per second, and formatting that value with
unit `"bytes"` produces the string "1.02 MiB/s". -/
theorem aggregate_example_pipeline :
    (parse_criterion_bench c6file).mean = 1 ∧
    fmt2 (parse_criterion_bench c6file).mean = "1.00" ∧
    deriveThroughput 1024 (parse_criterion_bench c6file).mean = some 1024000 ∧
    format_throughput 1024000 "bytes" = "1.02 MiB/s" := by
  have hm : (parse_criterion_bench c6file).mean = 1 := by
    norm_num [parse_criterion_bench, c6file]
  have hfmt1 : fmt2 (1 : ℚ) = "1.00" := by
    have hr : roundHalfEven ((1 : ℚ) * 100) = 100 := by
      rw [roundHalfEven]
      norm_num
    rw [fmt2, hr]
    decide
  have hder : deriveThroughput 1024 (1 : ℚ) = some 1024000 := by
    rw [deriveThroughput, if_neg (by norm_num : ¬(1 : ℚ) = 0)]
    norm_num
  have hfmt102 : fmt2 ((1024000 : ℚ) / 1000000) = "1.02" := by
    have hr : roundHalfEven ((1024000 : ℚ) / 1000000 * 100) = 102 := by
      rw [roundHalfEven]
      have h1 : ((1024000 : ℚ) / 1000000 * 100) = 512 / 5 := by norm_num
      rw [h1]
      norm_num
    rw [fmt2, hr]
    decide
  refine ⟨hm, by rw [hm]; exact hfmt1, by rw [hm]; exact hder, ?_⟩
  rw [format_throughput, if_pos rfl, if_neg (by norm_num), if_pos (by norm_num), hfmt102]
  decide

/-! ## C9 — zero-mean benchmarks make report generation raise -/

/-- C9: report generation is not total when a parsed mean is zero (as
happens when `mean.point_estimate` is absent and defaulted to 0):
`generate_summary` raises `ZeroDivisionError` (modelled by `none`) both for
a zero-mean benchmark carrying a `per_iteration` throughput descriptor
(`c9tp`, the `value / (mean / 1000)` division) and for a zero-mean monocoque
benchmark participating in a monocoque/zmq_rs comparison pair (`c9cmp`, the
`zmq_time / mono_time` division), instead of producing a report. -/
theorem generate_summary_zero_mean_raises :
    (generate_summary c9tp).isSome = false ∧ (generate_summary c9cmp).isSome = false := by
  constructor <;> decide

/-! ## C1 — the bulk-transfer receive loop -/

/-- One unfolding step of `recvLoop`. -/
theorem recvLoop_succ (N : ℕ) (polls : ℕ → Bool) (fuel t r : ℕ) :
    recvLoop N polls (fuel + 1) t r =
      if r < N then
        (if polls t then recvLoop N polls fuel (t + 1) (r + 1)
         else recvLoop N polls fuel (t + 1) r)
      else some r := rfl

/-- C1 counterexample: the receive loop of `bench_pub_sub_throughput` does
not terminate for every input — there is no retry budget.  If no message
ever arrives (`polls` constantly false) and at least one message is
expected, then for every iteration bound `fuel` the loop is still running
(`recvLoop` returns `none`), refuting the claim that the loop always stops
after N messages or a bounded number of retries. -/
theorem recv_loop_no_retry_budget :
    ¬ ∀ (num_messages : ℕ) (polls : ℕ → Bool), 0 < num_messages →
        ∃ fuel, (recvLoop num_messages polls fuel 0 0).isSome = true := by
  intro h
  obtain ⟨fuel, hf⟩ := h 1 (fun _ => false) (by norm_num)
  have hnone : ∀ fuel t, recvLoop 1 (fun _ => false) fuel t 0 = none := by
    intro fuel
    induction fuel with
    | zero => intro t; rfl
    | succ k ih => intro t; simp [recvLoop, ih]
  rw [hnone fuel 0] at hf
  simp at hf

/-- C1 (amended): the receive loop stops as soon as `num_messages` messages
have been collected — whenever at least `num_messages` of the first `k`
polls return a message, the loop exits within `k + 1` iterations having
received exactly `num_messages` — but if fewer than `num_messages` messages
ever arrive it retries (sleeping between empty polls) forever: there is no
retry budget. -/
theorem recv_loop_terminates_when_messages_arrive (num_messages k : ℕ) (polls : ℕ → Bool)
    (h : num_messages ≤ countHits polls 0 k) :
    recvLoop num_messages polls (k + 1) 0 0 = some num_messages := by
  suffices main : ∀ k t r, r ≤ num_messages → num_messages ≤ r + countHits polls t k →
      recvLoop num_messages polls (k + 1) t r = some num_messages by
    exact main k 0 0 (Nat.zero_le _) (by simpa using h)
  intro k
  induction k with
  | zero =>
    intro t r h1 h2
    simp [countHits] at h2
    have hr : r = num_messages := le_antisymm h1 h2
    subst hr
    rw [recvLoop_succ, if_neg (Nat.lt_irrefl _)]
  | succ kk ih =>
    intro t r h1 h2
    rcases Nat.lt_or_ge r num_messages with hr | hr
    · rw [countHits] at h2
      rw [recvLoop_succ, if_pos hr]
      by_cases hp : polls t = true
      · rw [if_pos hp]
        exact ih (t + 1) (r + 1) hr (by rw [if_pos hp] at h2; omega)
      · rw [if_neg hp]
        exact ih (t + 1) r h1 (by rw [if_neg hp] at h2; omega)
    · have hreq : r = num_messages := le_antisymm h1 hr
      subst hreq
      rw [recvLoop_succ, if_neg (Nat.lt_irrefl _)]

/-- Witness for C1 (amended): with every poll returning a message and two
messages expected, the loop exits within 4 iterations with exactly two
messages received. -/
theorem recv_loop_terminates_when_messages_arrive_witness :
    (2 : ℕ) ≤ countHits (fun _ => true) 0 3 ∧
    recvLoop 2 (fun _ => true) (3 + 1) 0 0 = some 2 :=
  ⟨by decide, recv_loop_terminates_when_messages_arrive 2 3 (fun _ => true) (by decide)⟩

/-! ## C8 — the round-trip benchmark loop -/

/-- C8: the round-trip benchmark performs a 100-iteration warm-up whose
timings are discarded (two exchange-time profiles agreeing on the timed
window beyond index 100 produce identical results), times exactly
`num_messages` exchanges, and reports `throughput = N / elapsed` and
`latency_us = elapsed / N * 1e6`, so that the reported throughput times the
reported latency equals 1e6. -/
theorem bench_req_rep_spec (N : ℕ) (f g : ℕ → ℚ) (hN : 0 < N)
    (hagree : ∀ i, i < N → f (warmupIterations + i) = g (warmupIterations + i))
    (hpos : 0 < (bench_req_rep_throughput N f).elapsed) :
    bench_req_rep_throughput N f = bench_req_rep_throughput N g ∧
    (bench_req_rep_throughput N f).throughput = N / (bench_req_rep_throughput N f).elapsed ∧
    (bench_req_rep_throughput N f).latency_us =
      (bench_req_rep_throughput N f).elapsed / N * 1000000 ∧
    (bench_req_rep_throughput N f).throughput * (bench_req_rep_throughput N f).latency_us =
      1000000 := by
  have hmap : (List.range N).map (fun i => f (warmupIterations + i)) =
      (List.range N).map (fun i => g (warmupIterations + i)) :=
    List.map_congr_left (fun i hi => hagree i (List.mem_range.mp hi))
  refine ⟨by simp only [bench_req_rep_throughput, hmap], rfl, rfl, ?_⟩
  have he : (bench_req_rep_throughput N f).elapsed ≠ 0 := ne_of_gt hpos
  have hN0 : (N : ℚ) ≠ 0 := Nat.cast_ne_zero.mpr hN.ne'
  show (N : ℚ) / (bench_req_rep_throughput N f).elapsed *
      ((bench_req_rep_throughput N f).elapsed / N * 1000000) = 1000000
  field_simp
  ring

/-- Witness for C8: two timed exchanges of one second each. -/
theorem bench_req_rep_spec_witness :
    0 < 2 ∧
    (∀ i, i < 2 → (fun _ : ℕ => (1 : ℚ)) (warmupIterations + i) =
      (fun _ : ℕ => (1 : ℚ)) (warmupIterations + i)) ∧
    0 < (bench_req_rep_throughput 2 (fun _ => (1 : ℚ))).elapsed ∧
    (bench_req_rep_throughput 2 (fun _ => (1 : ℚ))) =
        (bench_req_rep_throughput 2 (fun _ => (1 : ℚ))) ∧
    (bench_req_rep_throughput 2 (fun _ => (1 : ℚ))).throughput =
        2 / (bench_req_rep_throughput 2 (fun _ => (1 : ℚ))).elapsed ∧
    (bench_req_rep_throughput 2 (fun _ => (1 : ℚ))).latency_us =
      (bench_req_rep_throughput 2 (fun _ => (1 : ℚ))).elapsed / 2 * 1000000 ∧
    (bench_req_rep_throughput 2 (fun _ => (1 : ℚ))).throughput *
        (bench_req_rep_throughput 2 (fun _ => (1 : ℚ))).latency_us = 1000000 := by
  have hpos : 0 < (bench_req_rep_throughput 2 (fun _ => (1 : ℚ))).elapsed := by
    have hl : (List.range 2).map (fun _ : ℕ => (1 : ℚ)) = [1, 1] := by decide
    simp only [bench_req_rep_throughput, hl]
    norm_num
  have hmain := bench_req_rep_spec 2 (fun _ => (1 : ℚ)) (fun _ => (1 : ℚ))
    (by norm_num) (fun i _ => rfl) hpos
  exact ⟨by norm_num, fun i _ => rfl, hpos, hmain.1, hmain.2.1, hmain.2.2.1, hmain.2.2.2⟩

/-! ## C10 — the counterpart-name double replace

The second substitution `replace('_monocoque_', '_zmq_rs_')` is the identity
on the output of the first `replace('monocoque', 'zmq_rs')`: the first
replace eliminates every occurrence of `"monocoque"` and cannot create a new
one ("monocoque" has no nontrivial self-overlap, is longer than `"zmq_rs"`,
and contains neither `'z'` nor `'s'`), so no `"_monocoque_"` remains. -/

/-- One unfolding step of `replaceAllFuel`. -/
theorem replaceAllFuel_succ (p r : List Char) (fuel : ℕ) (s : List Char) :
    replaceAllFuel p r (fuel + 1) s =
      if p ≠ [] ∧ s.take p.length = p then r ++ replaceAllFuel p r fuel (s.drop p.length)
      else
        match s with
        | [] => []
        | c :: rest => c :: replaceAllFuel p r fuel rest := rfl

/-- A pattern occurring in the empty list is empty. -/
theorem occursIn_nil {q : List Char} (h : occursIn q []) : q = [] := by
  obtain ⟨a, b, hab⟩ := h
  have h2 := hab.symm
  simp only [List.append_eq_nil] at h2
  exact h2.2.1

/-- An occurrence in a cons either starts at the head or lies in the tail. -/
theorem occursIn_cons {q : List Char} {c : Char} {s : List Char} (h : occursIn q (c :: s)) :
    (∃ b, c :: s = q ++ b) ∨ occursIn q s := by
  obtain ⟨a, b, hab⟩ := h
  cases a with
  | nil =>
    left
    exact ⟨b, by simpa using hab⟩
  | cons e a' =>
    right
    refine ⟨a', b, ?_⟩
    have h3 : c :: s = e :: (a' ++ (q ++ b)) := by simpa using hab
    injection h3 with h4 h5

/-- An occurrence in an append is inside the left part, inside the right
part, or spans the boundary with a nonempty suffix of the left part
starting the pattern. -/
theorem occursIn_append_split {q u v : List Char} (h : occursIn q (u ++ v)) :
    occursIn q u ∨ occursIn q v ∨
      ∃ u1 u2 w, u = u1 ++ u2 ∧ u2 ≠ [] ∧ q = u2 ++ w := by
  obtain ⟨a, b, hab⟩ := h
  rcases List.append_eq_append_iff.mp hab with ⟨w, _, hw2⟩ | ⟨w, hw1, hw2⟩
  · exact Or.inr (Or.inl ⟨w, b, hw2⟩)
  · rcases List.append_eq_append_iff.mp hw2 with ⟨x, hx1, _⟩ | ⟨x, hx1, hx2⟩
    · exact Or.inl ⟨a, x, by rw [hw1, hx1]⟩
    · cases w with
      | nil =>
        refine Or.inr (Or.inl ⟨[], b, ?_⟩)
        rw [hx2, List.nil_append]
        simp only [List.nil_append] at hx1
        rw [hx1]
      | cons e w' =>
        exact Or.inr (Or.inr ⟨a, e :: w', x, hw1, by simp, hx1⟩)

/-- No suffix of `"zmq_rs"` of positive length is a prefix of
`"monocoque"`. -/
theorem no_mono_take : ∀ j, j < 6 → pMono.take (rZmq.drop j).length ≠ rZmq.drop j := by
  decide

/-- No tail of `"monocoque"` starts with `'z'`. -/
theorem drop_take1_ne_z : ∀ k, k < 9 → (pMono.drop k).take 1 ≠ ['z'] := by decide

/-- Proper tails of `"monocoque"` are nonempty. -/
theorem pMono_drop_ne_nil : ∀ k, k < 9 → pMono.drop k ≠ [] := by decide

/-- Taking one element of an append with a nonempty left part. -/
theorem take1_append {A : List Char} (w : List Char) (hA : A ≠ []) :
    (A ++ w).take 1 = A.take 1 := by
  cases A with
  | nil => exact absurd rfl hA
  | cons a as => rfl

/-- `str.replace` is the identity when the pattern does not occur. -/
theorem replaceAllFuel_id_of_not_occurs (p r : List Char) :
    ∀ fuel s, ¬ occursIn p s → replaceAllFuel p r fuel s = s := by
  intro fuel
  induction fuel with
  | zero => intro s _; rfl
  | succ k ih =>
    intro s h
    have hc : ¬ (p ≠ [] ∧ s.take p.length = p) := by
      rintro ⟨-, htake⟩
      refine h ⟨[], s.drop p.length, ?_⟩
      conv_lhs => rw [← List.take_append_drop p.length s]
      rw [htake, List.nil_append]
    rw [replaceAllFuel_succ, if_neg hc]
    cases s with
    | nil => rfl
    | cons c rest =>
      have hrest : ¬ occursIn p rest := by
        rintro ⟨a, b, hab⟩
        exact h ⟨c :: a, b, by rw [hab]; rfl⟩
      show c :: replaceAllFuel p r k rest = c :: rest
      rw [ih rest hrest]

/-- If a tail `pMono.drop k` of the pattern is a prefix of the transformed
list, it was already a prefix of the input at that point: the replacement
`"zmq_rs"` starts with `'z'`, which does not occur in `"monocoque"`. -/
theorem replaceAllFuel_headMatch :
    ∀ fuel k, k < 9 → ∀ s w, replaceAllFuel pMono rZmq fuel s = pMono.drop k ++ w →
      ∃ w', s = pMono.drop k ++ w' := by
  intro fuel
  induction fuel with
  | zero => intro k _ s w h; exact ⟨w, h⟩
  | succ f ih =>
    intro k hk s w h
    rw [replaceAllFuel_succ] at h
    by_cases hc : (pMono ≠ [] ∧ s.take pMono.length = pMono)
    · rw [if_pos hc] at h
      exfalso
      have h1 := congrArg (List.take 1) h
      rw [take1_append _ (by decide : rZmq ≠ []),
        take1_append _ (pMono_drop_ne_nil k hk)] at h1
      exact drop_take1_ne_z k hk (h1.symm.trans (by decide : rZmq.take 1 = ['z']))
    · rw [if_neg hc] at h
      cases s with
      | nil =>
        exfalso
        have hlen := congrArg List.length h
        simp only [List.length_nil, List.length_append, List.length_drop] at hlen
        have e2 : pMono.length = 9 := by decide
        rw [e2] at hlen
        omega
      | cons c rest =>
        obtain ⟨d, t, hd⟩ : ∃ d t, pMono.drop k = d :: t := by
          cases hdk : pMono.drop k with
          | nil => exact absurd hdk (pMono_drop_ne_nil k hk)
          | cons d t => exact ⟨d, t, rfl⟩
        rw [hd] at h
        have hh : c :: replaceAllFuel pMono rZmq f rest = d :: (t ++ w) := by simpa using h
        have hcd : c = d := by injection hh
        have hT : replaceAllFuel pMono rZmq f rest = t ++ w := by injection hh
        have h1 : pMono.drop (k + 1) = t :=
          (List.tail_drop pMono k).symm.trans (by rw [hd]; rfl)
        by_cases hk1 : k + 1 < 9
        · obtain ⟨w', hw'⟩ := ih (k + 1) hk1 rest w (by rw [hT, h1])
          refine ⟨w', ?_⟩
          rw [hd, hcd, hw', h1]
          rfl
        · have hk8 : k = 8 := by omega
          subst hk8
          have ht0 : t = [] := by
            rw [← h1]
            decide
          refine ⟨rest, ?_⟩
          rw [hd, hcd, ht0]
          rfl

/-- The output of `replace('monocoque', 'zmq_rs')` contains no occurrence of
`"monocoque"`. -/
theorem replaceAllFuel_no_mono :
    ∀ fuel s, s.length ≤ fuel → ¬ occursIn pMono (replaceAllFuel pMono rZmq fuel s) := by
  intro fuel
  induction fuel with
  | zero =>
    intro s hlen hocc
    have hs : s = [] := List.length_eq_zero.mp (Nat.le_zero.mp hlen)
    subst hs
    exact absurd (occursIn_nil hocc) (by decide)
  | succ f ih =>
    intro s hlen hocc
    rw [replaceAllFuel_succ] at hocc
    by_cases hc : (pMono ≠ [] ∧ s.take pMono.length = pMono)
    · rw [if_pos hc] at hocc
      rcases occursIn_append_split hocc with h1 | h2 | h3
      · obtain ⟨a, b, hab⟩ := h1
        have hlen2 := congrArg List.length hab
        simp only [List.length_append] at hlen2
        have e1 : rZmq.length = 6 := by decide
        have e2 : pMono.length = 9 := by decide
        rw [e1, e2] at hlen2
        omega
      · refine ih (s.drop pMono.length) ?_ h2
        have e2 : pMono.length = 9 := by decide
        simp only [List.length_drop, e2]
        omega
      · obtain ⟨u1, u2, w, hu, hne, hq⟩ := h3
        have hu2 : u2 = rZmq.drop u1.length := by rw [hu, List.drop_left]
        have hj : u1.length < 6 := by
          have hlen3 := congrArg List.length hu
          simp only [List.length_append] at hlen3
          have e1 : rZmq.length = 6 := by decide
          have hpos : 0 < u2.length := List.length_pos.mpr hne
          rw [e1] at hlen3
          omega
        have htake : pMono.take (rZmq.drop u1.length).length = rZmq.drop u1.length := by
          rw [← hu2, hq, List.take_left]
        exact no_mono_take u1.length hj htake
    · rw [if_neg hc] at hocc
      cases s with
      | nil => exact absurd (occursIn_nil hocc) (by decide)
      | cons c rest =>
        have hocc' : occursIn pMono (c :: replaceAllFuel pMono rZmq f rest) := hocc
        rcases occursIn_cons hocc' with ⟨b, hb⟩ | h2
        · have hrepl : replaceAllFuel pMono rZmq (f + 1) (c :: rest) = pMono.drop 0 ++ b := by
            rw [replaceAllFuel_succ, if_neg hc]
            simpa using hb
          obtain ⟨w', hw'⟩ :=
            replaceAllFuel_headMatch (f + 1) 0 (by norm_num) (c :: rest) b hrepl
          apply hc
          refine ⟨by decide, ?_⟩
          rw [hw']
          simp only [List.drop_zero]
          exact List.take_left _ _
        · refine ih rest ?_ h2
          have hlen' : rest.length + 1 ≤ f + 1 := by simpa using hlen
          omega

/-- `str.replace` on `List Char` is the identity when the pattern does not
occur. -/
theorem replaceAll_id_of_not_occurs (p r s : List Char)
    (h : ¬ occursIn p s) : replaceAll p r s = s :=
  replaceAllFuel_id_of_not_occurs p r s.length s h

/-- The output of `replaceAll pMono rZmq` contains no `"monocoque"`. -/
theorem replaceAll_no_mono (s : List Char) :
    ¬ occursIn pMono (replaceAll pMono rZmq s) :=
  replaceAllFuel_no_mono s.length s le_rfl

/-- An occurrence of `"_monocoque_"` contains an occurrence of
`"monocoque"`. -/
theorem occursIn_mono_of_und {s : List Char} (h : occursIn pUnd s) : occursIn pMono s := by
  obtain ⟨a, b, hab⟩ := h
  refine ⟨a ++ ['_'], '_' :: b, ?_⟩
  rw [hab]
  have hsplit : pUnd = ['_'] ++ (pMono ++ ['_']) := by decide
  rw [hsplit]
  simp [List.append_assoc]

/-- C10: for every benchmark name, the double substitution
`name.replace('monocoque', 'zmq_rs').replace('_monocoque_', '_zmq_rs_')`
used to build the counterpart name equals the single substitution
`name.replace('monocoque', 'zmq_rs')` — the second replace is always the
identity on the first replace's output. -/
theorem counterpart_double_replace_equiv (name : String) :
    counterpartBase name = pyReplace name "monocoque" "zmq_rs" := by
  have hinner : (pyReplace name "monocoque" "zmq_rs").toList =
      replaceAll pMono rZmq name.toList := by
    rw [pyReplace, show "monocoque".toList = pMono from by decide,
      show "zmq_rs".toList = rZmq from by decide]
    rfl
  rw [counterpartBase]
  conv_lhs => rw [pyReplace]
  rw [hinner, show "_monocoque_".toList = pUnd from by decide]
  rw [replaceAll_id_of_not_occurs _ _ _
    (fun hocc => replaceAll_no_mono name.toList (occursIn_mono_of_und hocc))]
  rw [pyReplace, show "monocoque".toList = pMono from by decide,
    show "zmq_rs".toList = rZmq from by decide]

end Monocoque
